import Mathlib

/-!
Verification of the bibliography synchronization and artifact-resolution
engine of `inspire.py` (a CLI tool interacting with the iNSPIRE literature
service).  The Python source is shallowly embedded below: file contents are
modelled as `List Char`, the network and the interactive confirmation
prompt are boundary parameters, and each Python function that the claims
mention is translated into a Lean definition of the same name.
-/

/-- File contents, keys and paths are Python strings, modelled as lists of
characters. -/
abbrev Str : Type := List Char

/-- Coercion helper from Lean string literals to the `Str` model. -/
def strL (s : String) : Str := s.data

/-! ### KeyExtractor: `bib_get_texkeys` (inspire.py lines 179-186)

The source extracts citation keys with
`re.findall` over the pattern
`\s*@\w+\{\s*([a-zA-Z0-9_\-\.:]+)\s*,(?:[^\{\}]|\{[^\{\}]*\})*\}\s*`.
The regex engine is deterministic on this pattern (every quantified class
is disjoint from the token that follows it), so the leftmost-match
semantics of `findall` is embedded as: try to match at the current
position; on failure advance one character.  Character classes `\s` and
`\w` are modelled by their ASCII meaning. -/

/-- Python regex class `\s` (ASCII part): space, tab, newline, carriage
return, vertical tab, form feed. -/
def isWS (c : Char) : Bool :=
  c = ' ' || c = '\t' || c = '\n' || c = '\r' || c = '\x0b' || c = '\x0c'

/-- Python regex class `\w` (ASCII part): alphanumerics and underscore. -/
def isWordChar (c : Char) : Bool :=
  c.isAlphanum || c = '_'

/-- The citation-key character class `[a-zA-Z0-9_\-\.:]` of the source
pattern. -/
def isKeyChar (c : Char) : Bool :=
  c.isAlphanum || c = '_' || c = '-' || c = '.' || c = ':'

/-- The entry-body part `(?:[^\{\}]|\{[^\{\}]*\})*\}` of the source
pattern: consume body items (plain non-brace characters, or a one-level
brace group), then the closing brace; return the remainder after the
closing brace.  `inGroup` records whether we are inside a `\{[^\{\}]*\}`
group.  A second opening brace inside a group (nesting depth two) or end
of input makes the whole match fail, exactly as the regex does. -/
def scanBody : Str → Bool → Option Str
  | [], _ => none
  | c :: rest, inGroup =>
    if c = '\x7d' then
      if inGroup then scanBody rest false else some rest
    else if c = '\x7b' then
      if inGroup then none else scanBody rest true
    else
      scanBody rest inGroup

/-- The part of the source pattern after `@\w+\{`: `\s*`, the captured key
`([a-zA-Z0-9_\-\.:]+)`, `\s*`, `,`, the body, `\}`, and the trailing
`\s*`.  Returns the captured key and the remainder after the whole
match. -/
def matchAfterBrace (l4 : Str) : Option (Str × Str) :=
  match (l4.dropWhile isWS).takeWhile isKeyChar,
        ((l4.dropWhile isWS).dropWhile isKeyChar).dropWhile isWS with
  | kc :: kcs, ',' :: l8 =>
    match scanBody l8 false with
    | some l9 => some (kc :: kcs, l9.dropWhile isWS)
    | none => none
  | _, _ => none

/-- One attempt of the source pattern at the current position: leading
`\s*`, then `@`, `\w+`, `\{`, and the rest via `matchAfterBrace`. -/
def matchEntryAt (l : Str) : Option (Str × Str) :=
  match l.dropWhile isWS with
  | '@' :: l2 =>
    match l2.takeWhile isWordChar, l2.dropWhile isWordChar with
    | _ :: _, '\x7b' :: l4 => matchAfterBrace l4
    | _, _ => none
  | _ => none

/-- Fuel-indexed driver of `re.findall`: attempt a match at the current
position, on success continue after the match, on failure advance one
character.  The fuel only serves totality; `findallAux_eq_findallKeys`
below shows any fuel of at least the input length computes the same
result. -/
def findallAux : Nat → Str → List Str
  | 0, _ => []
  | fuel + 1, l =>
    match matchEntryAt l with
    | some (k, r) => k :: findallAux fuel r
    | none =>
      match l with
      | [] => []
      | _ :: rest => findallAux fuel rest

/-- The `re.findall` call of `bib_get_texkeys`: all captured keys, leftmost
first, duplicates preserved. -/
def findallKeys (l : Str) : List Str :=
  findallAux l.length l

/-- Model of `bib_get_texkeys` (inspire.py lines 179-186), taking the file
contents instead of the file path. -/
def bib_get_texkeys (content : Str) : List Str :=
  findallKeys content

/-- Model of `bib_append_entry` (inspire.py lines 187-189): opening in
append mode and writing `'\n' + bibtex` turns contents `c` into
`c ++ '\n' :: bibtex`.  No duplicate check of any kind is performed. -/
def bib_append_entry (content : Str) (bibtex : Str) : Str :=
  content ++ '\n' :: bibtex

example : bib_get_texkeys (strL "@article\x7bFoo:1, title=\x7bx\x7d\x7d\n\n@book\x7bBar.2, y\x7d") = [strL "Foo:1", strL "Bar.2"] := by decide
example : bib_get_texkeys (strL "# header\n@a\x7bK, v\x7d junk @b\x7bK, w\x7d") = [strL "K", strL "K"] := by decide
example : bib_get_texkeys (strL "@a\x7bK, \x7b\x7bdeep\x7d\x7d \x7d@b\x7bL, x\x7d") = [strL "L"] := by decide
example : bib_get_texkeys (strL "@bad\x7bQ\n@book\x7bB, y\x7d") = [strL "B"] := by decide

/-! ### Records and identifier normalization -/

/-- One element of a record's `arxiv_eprints` list: `{value, categories}`. -/
structure Eprint where
  value : Str
  categories : List Str
deriving DecidableEq

/-- The slice of a remote record (`rec['metadata']` plus its links) that the
embedded code reads.  A missing dictionary key is an `Option.none`; the
`texkeys` filter of the source checks `'texkeys' in rec['metadata']`. -/
structure Record where
  texkeys : Option (List Str)
  arxiv_eprints : Option (List Eprint)
deriving DecidableEq

/-- Python exceptions that the embedded fragments can raise. -/
inductive PyErr where
  | fileExistsError
  | indexError
  | keyError
  | valueError (msg : Str)
deriving DecidableEq

/-- The source check `re.fullmatch(r'\d+\.\d+', arxiv_id)`
(inspire.py line 205): one or more digits, a dot, one or more digits,
matching the whole string. -/
def re_fullmatch_num (l : Str) : Bool :=
  let d1 := l.takeWhile Char.isDigit
  match l.dropWhile Char.isDigit with
  | '.' :: d2 => !d1.isEmpty && !d2.isEmpty && d2.all Char.isDigit
  | _ => false

/-- Modelled from the spec: the modern pattern `NNNN.NNNNN` the spec
describes for IdentifierResolver — four digits, a dot, four or five
digits, matching the whole string.  Stated only to compare against the
source's actual pattern `re_fullmatch_num`. -/
def spec_fullmatch_modern (l : Str) : Bool :=
  let d1 := l.takeWhile Char.isDigit
  match l.dropWhile Char.isDigit with
  | '.' :: d2 =>
    decide (d1.length = 4) && (decide (d2.length = 4) || decide (d2.length = 5))
      && d2.all Char.isDigit
  | _ => false

/-- The identifier-normalization step of `download_pdf` (inspire.py lines
202-207): a value fully matching `\d+\.\d+` is used unchanged, otherwise
the first category is prefixed with a slash.  `none` corresponds to the
`IndexError` that `categories[0]` raises on an empty category list. -/
def arxiv_id_of (value : Str) (categories : List Str) : Option Str :=
  if re_fullmatch_num value then some value
  else categories.head?.map (fun c => c ++ '/' :: value)

example : arxiv_id_of (strL "2107.12345") [] = some (strL "2107.12345") := by decide
example : arxiv_id_of (strL "9912001") [strL "hep-ph"] = some (strL "hep-ph/9912001") := by decide
example : arxiv_id_of (strL "12.3") [strL "hep-ph"] = some (strL "12.3") := by decide

/-! ### ArtifactFetcher: `download_pdf` (inspire.py lines 196-212)

The filesystem is a map from paths to optional contents, the network a map
from URLs to the bytes it serves; `urllib.request.urlretrieve` writes the
fetched bytes to the destination path. -/

/-- Model of `download_pdf`.  Mirrors the source line by line: the
existence check with `exist_ok`, the `arxiv_eprints` lookup (`[0]` on an
empty list is an `IndexError`), the normalization with its possible
`IndexError` on `categories[0]`, the URL construction, and the final
`ValueError` branch whose message formatting reads
`record['metadata']['texkeys'][0]` (a `KeyError` or `IndexError` when that
is absent or empty). -/
def download_pdf (net : Str → Str) (fs : Str → Option Str) (record : Record)
    (dest_file : Str) (exist_ok : Bool) : Except PyErr (Str → Option Str) :=
  if (fs dest_file).isSome && !exist_ok then
    .error .fileExistsError
  else
    match record.arxiv_eprints with
    | some [] => .error .indexError
    | some (e :: _) =>
      match arxiv_id_of e.value e.categories with
      | some aid =>
        .ok (fun p =>
          if p = dest_file then
            some (net (strL "http://arxiv.org/pdf/" ++ aid ++ strL ".pdf"))
          else fs p)
      | none => .error .indexError
    | none =>
      match record.texkeys with
      | none => .error .keyError
      | some [] => .error .indexError
      | some (t :: _) => .error (.valueError t)

/-! ### The update flow (inspire.py lines 259-314) and the selection flow
(inspire.py lines 352-387)

`get_records` and `retrieve_link` perform network calls; they enter the
model as the boundary parameters `source` (texkey query, `size=1`, already
projected to the hit list) and `retrieve` (the bibtex text served at a
record's `bibtex` link).  The interactive `confirm` prompt is the
parameter `confirmAns`, mapping the prompt's `default_is_yes` value to the
user's answer. -/

/-- The record filters of the update loop (inspire.py lines 293-296):
keep records whose metadata has `texkeys`, then those whose `texkeys`
contain the queried key. -/
def filter_matching (texkey : Str) (recs : List Record) : List Record :=
  (recs.filter (fun r => r.texkeys.isSome)).filter
    (fun r => decide (texkey ∈ r.texkeys.getD []))

/-- The backup-restore step of the update flow (inspire.py lines 264-273):
if a backup exists, prompt with default `len(bak_texkeys) > len(bib_texkeys)`;
on yes, `shutil.move` restores the backup over the live file, otherwise the
backup is removed.  Either way no backup file remains; the function returns
the resulting live contents. -/
def recover (confirmAns : Bool → Bool) (live : Str) (bak : Option Str) : Str :=
  match bak with
  | none => live
  | some b =>
    if confirmAns (decide ((bib_get_texkeys b).length > (bib_get_texkeys live).length))
    then b else live

/-- The header line written to the emptied live file (inspire.py lines
276-278): `"# updated by {} on {} \n".format(os.path.basename(__file__),
datetime.now())`. -/
def headerOf (now : Str) : Str :=
  strL "# updated by inspire.py on " ++ now ++ strL " \n"

/-- The per-key update loop (inspire.py lines 291-303) without the PDF
branch (`args.pdf` unset): for each captured key query the source, filter,
require exactly one match (`len(records) != 1` raises `ValueError`,
aborting the run), else append the fetched bibtex.  Returns the live
contents reached and whether the loop aborted. -/
def update_loop (source : Str → List Record) (retrieve : Record → Str) :
    List Str → Str → Str × Bool
  | [], live => (live, false)
  | k :: ks, live =>
    match filter_matching k (source k) with
    | [r] => update_loop source retrieve ks (bib_append_entry live (retrieve r))
    | _ => (live, true)

/-- Outcome of one `--update` run: live file contents, backup file
contents if a backup file remains, and whether the run aborted with an
uncaught exception. -/
structure SyncResult where
  live : Str
  bak : Option Str
  aborted : Bool
deriving DecidableEq

/-- The whole `--update` branch (inspire.py lines 259-314): capture
`bib_texkeys` from the live file (line 263, before any restore), run the
backup-restore step, copy the live file to the backup path, truncate the
live file to the header, run the per-key loop, and on success remove the
backup (line 314).  An abort leaves the backup in place. -/
def update_run (confirmAns : Bool → Bool) (source : Str → List Record)
    (retrieve : Record → Str) (now : Str) (live0 : Str) (bak0 : Option Str) :
    SyncResult :=
  let bib_texkeys := bib_get_texkeys live0
  let live1 := recover confirmAns live0 bak0
  let res := update_loop source retrieve bib_texkeys (headerOf now)
  if res.2 then ⟨res.1, some live1, true⟩ else ⟨res.1, none, false⟩

/-- The primary texkey `rec['metadata']['texkeys'][0]` (inspire.py line
359).  The selection flow only reaches it for records that passed the
`'texkeys' in r['metadata']` filter; records with an empty `texkeys` list
(an `IndexError` in the source) are excluded by hypothesis in the theorems
below. -/
def texkey0 (r : Record) : Str :=
  match r.texkeys with
  | some (k :: _) => k
  | _ => []

/-- The bibliography part of the selection flow (inspire.py lines 352-387,
with `args.bib` set and no display): read `bib_texkeys` once before the
loop (line 353), then for each chosen record fetch its bibtex and append
it unless its primary texkey is in that pre-loop list (lines 384-387). -/
def selection_run (retrieve : Record → Str) (records : List Record)
    (live0 : Str) : Str :=
  let bib_texkeys := bib_get_texkeys live0
  records.foldl
    (fun live r =>
      if decide (texkey0 r ∈ bib_texkeys) then live
      else bib_append_entry live (retrieve r))
    live0

/-! ### Auxiliary definitions for the theorems -/

/-- A canonical well-formed bibliography entry with key `k` and field text
`b`, as the remote `bibtex` link serves it: `"@article{" ++ k ++ "," ++ b
++ "}"`, written in cons form. -/
def mkEntry (k : Str) (b : Str) : Str :=
  '@' :: 'a' :: 'r' :: 't' :: 'i' :: 'c' :: 'l' :: 'e' :: '\x7b'
    :: (k ++ ',' :: (b ++ ['\x7d']))

/-- Well-formedness of an entry produced by `mkEntry`: a nonempty key of
key characters and a body free of braces. -/
def WfEntry (k : Str) (b : Str) : Prop :=
  k ≠ [] ∧ (∀ c ∈ k, isKeyChar c = true) ∧ ∀ c ∈ b, c ≠ '\x7b' ∧ c ≠ '\x7d'

instance (k b : Str) : Decidable (WfEntry k b) := by
  unfold WfEntry; infer_instance

/-- The text a successful update loop appends after the header: for each
captured key, a newline and the bibtex fetched for the key's unique
resolved record `rs k`. -/
def appendsU (retrieve : Record → Str) (rs : Str → Record) : List Str → Str
  | [] => []
  | k :: ks => ('\n' :: retrieve (rs k)) ++ appendsU retrieve rs ks

/-- The text the selection loop appends to the live file: for each chosen
record, nothing if its primary texkey was in the pre-loop key list, else a
newline and its bibtex. -/
def appendsSel (retrieve : Record → Str) (keys0 : List Str) :
    List Record → Str
  | [] => []
  | r :: rest =>
    (if decide (texkey0 r ∈ keys0) then [] else '\n' :: retrieve r)
      ++ appendsSel retrieve keys0 rest

/-! Concrete fixtures used by witnesses and counterexamples. -/

/-- A record whose texkeys are `["A"]`. -/
def recA : Record := ⟨some [strL "A"], none⟩

/-- A record whose texkeys are `["B"]`. -/
def recB : Record := ⟨some [strL "B"], none⟩

/-- A record source resolving `A` to `recA` and `B` to `recB`. -/
def srcAB : Str → List Record :=
  fun k => if k = strL "A" then [recA] else if k = strL "B" then [recB] else []

/-- A record source resolving `A` to `recA` and everything else to no
records. -/
def srcAonly : Str → List Record :=
  fun k => if k = strL "A" then [recA] else []

/-- The unique resolved record per key for `srcAB`. -/
def rsAB : Str → Record := fun k => if k = strL "A" then recA else recB

/-- A bibtex fetcher serving well-formed entries for `recA` and `recB`. -/
def retrAB : Record → Str :=
  fun r => if r = recA then mkEntry (strL "A") (strL " x") else mkEntry (strL "B") (strL " y")

/-- A live file holding one entry with key `A`. -/
def liveA : Str := mkEntry (strL "A") (strL " x")

/-- A live file holding two entries with keys `A` and `B`. -/
def liveAB : Str := mkEntry (strL "A") (strL " x") ++ '\n' :: mkEntry (strL "B") (strL " y")

/-- Two distinct records sharing the primary texkey `X`. -/
def recX1 : Record := ⟨some [strL "X"], none⟩

/-- A second record with primary texkey `X`, distinct from `recX1`. -/
def recX2 : Record := ⟨some [strL "X"], some []⟩

/-- A bibtex fetcher serving distinct entries, both keyed `X`, for the two
records above. -/
def retrX : Record → Str :=
  fun r => if r = recX1 then mkEntry (strL "X") (strL " a") else mkEntry (strL "X") (strL " b")

/-- A record with texkeys `["A"]` and a modern-style arXiv eprint. -/
def recP : Record := ⟨some [strL "A"], some [⟨strL "2107.12345", []⟩]⟩

/-- A record whose only arXiv eprint has a legacy-style value and an empty
category list. -/
def recL : Record := ⟨some [strL "A"], some [⟨strL "9912001", []⟩]⟩

/-- A bibliography text containing a well-formed entry keyed `k1`, then a
malformed unterminated fragment `@bad{Q`, then a well-formed entry keyed
`k3`. -/
def c8text (k1 k3 : Str) : Str :=
  mkEntry k1 (strL " x")
    ++ '\n' :: '@' :: 'b' :: 'a' :: 'd' :: '\x7b' :: 'Q' :: '\n'
    :: mkEntry k3 (strL " y")

/-! ### Helper lemmas about the extractor -/

/-- Whitespace characters are not `@`. -/
theorem isWS_ne_at (c : Char) (h : isWS c = true) : c ≠ '@' := by
  intro heq
  rw [heq] at h
  exact absurd h (by decide)

/-- Key characters are not whitespace. -/
theorem isKeyChar_not_ws (c : Char) (h : isKeyChar c = true) : isWS c = false := by
  cases hws : isWS c
  · rfl
  · exfalso
    unfold isWS at hws
    simp only [Bool.or_eq_true, decide_eq_true_eq] at hws
    rcases hws with ((((h1 | h1) | h1) | h1) | h1) | h1 <;> subst h1 <;>
      revert h <;> decide

/-- If every element of `l` satisfies `p` and `c` does not, `takeWhile p`
over `l ++ c :: rest` returns exactly `l`. -/
theorem takeWhile_all_append (p : Char → Bool) (l : Str)
    (hl : ∀ c ∈ l, p c = true) (c : Char) (hc : p c = false) (rest : Str) :
    (l ++ c :: rest).takeWhile p = l := by
  induction l with
  | nil => simp [List.takeWhile_cons_of_neg, hc]
  | cons a l ih =>
    have ha : p a = true := hl a (by simp)
    simp only [List.cons_append, List.takeWhile_cons_of_pos ha]
    rw [ih (fun c hm => hl c (by simp [hm]))]

/-- If every element of `l` satisfies `p` and `c` does not, `dropWhile p`
over `l ++ c :: rest` drops exactly `l`. -/
theorem dropWhile_all_append (p : Char → Bool) (l : Str)
    (hl : ∀ c ∈ l, p c = true) (c : Char) (hc : p c = false) (rest : Str) :
    (l ++ c :: rest).dropWhile p = c :: rest := by
  induction l with
  | nil => simp [List.dropWhile_cons_of_neg, hc]
  | cons a l ih =>
    have ha : p a = true := hl a (by simp)
    simp only [List.cons_append, List.dropWhile_cons_of_pos ha]
    exact ih (fun c hm => hl c (by simp [hm]))

/-- A successful `scanBody` strictly consumes input. -/
theorem scanBody_length : ∀ (l : Str) (g : Bool) (r : Str),
    scanBody l g = some r → r.length < l.length := by
  intro l
  induction l with
  | nil => intro g r h; simp [scanBody] at h
  | cons c rest ih =>
    intro g r h
    unfold scanBody at h
    split at h
    · split at h
      · exact Nat.lt_succ_of_lt (ih false r h)
      · cases h
        simp only [List.length_cons]
        omega
    · split at h
      · split at h
        · exact absurd h (by simp)
        · exact Nat.lt_succ_of_lt (ih true r h)
      · exact Nat.lt_succ_of_lt (ih g r h)

/-- Over a brace-free body, `scanBody` stops exactly at the closing
brace. -/
theorem scanBody_flat (b : Str) (hb : ∀ c ∈ b, c ≠ '\x7b' ∧ c ≠ '\x7d')
    (rest : Str) : scanBody (b ++ '\x7d' :: rest) false = some rest := by
  induction b with
  | nil => simp [scanBody]
  | cons c b ih =>
    obtain ⟨h1, h2⟩ := hb c (by simp)
    simp only [List.cons_append]
    unfold scanBody
    rw [if_neg h2, if_neg h1]
    exact ih (fun c hm => hb c (by simp [hm]))

/-- A successful `matchAfterBrace` consumes input: the remainder is
shorter than the input (it lies beyond the comma and the body). -/
theorem matchAfterBrace_length (l4 : Str) (k r : Str)
    (h : matchAfterBrace l4 = some (k, r)) : r.length < l4.length := by
  unfold matchAfterBrace at h
  split at h
  next kc kcs l8 hkey hcomma =>
    split at h
    next l9 hscan =>
      cases h
      have h1 : ((l4.dropWhile isWS).dropWhile isKeyChar).length ≤ l4.length := by
        calc ((l4.dropWhile isWS).dropWhile isKeyChar).length
            ≤ (l4.dropWhile isWS).length := (List.dropWhile_sublist _).length_le
          _ ≤ l4.length := (List.dropWhile_sublist _).length_le
      have h2 : (',' :: l8).length ≤ ((l4.dropWhile isWS).dropWhile isKeyChar).length := by
        rw [← hcomma]
        exact (List.dropWhile_sublist _).length_le
      have h3 := scanBody_length l8 false l9 hscan
      have h4 : (l9.dropWhile isWS).length ≤ l9.length :=
        (List.dropWhile_sublist _).length_le
      simp only [List.length_cons] at h2
      omega
    next => exact absurd h (by simp)
  next => exact absurd h (by simp)

/-- A successful `matchEntryAt` strictly consumes input. -/
theorem matchEntryAt_consumes (l : Str) (k r : Str)
    (h : matchEntryAt l = some (k, r)) : r.length < l.length := by
  unfold matchEntryAt at h
  split at h
  next l2 hat =>
    have h0 : (l.dropWhile isWS).length ≤ l.length :=
      (List.dropWhile_sublist _).length_le
    rw [hat] at h0
    simp only [List.length_cons] at h0
    split at h
    next l4 htake hdrop =>
      have h1 : ('\x7b' :: l4).length ≤ l2.length := by
        rw [← hdrop]
        exact (List.dropWhile_sublist _).length_le
      simp only [List.length_cons] at h1
      have h2 := matchAfterBrace_length l4 k r h
      omega
    next => exact absurd h (by simp)
  next => exact absurd h (by simp)

/-- Unfolding `findallAux` at a successful match attempt. -/
theorem findallAux_succ_some (m : Nat) (l : Str) (k r : Str)
    (hm : matchEntryAt l = some (k, r)) :
    findallAux (m + 1) l = k :: findallAux m r := by
  simp only [findallAux, hm]

/-- Unfolding `findallAux` at a failed match attempt: advance one
character. -/
theorem findallAux_succ_none (m : Nat) (c : Char) (rest : Str)
    (hm : matchEntryAt (c :: rest) = none) :
    findallAux (m + 1) (c :: rest) = findallAux m rest := by
  simp only [findallAux, hm]

/-- The fuel in `findallAux` is irrelevant as soon as it covers the input
length. -/
theorem findallAux_eq_findallKeys (fuel : Nat) : ∀ l : Str,
    l.length ≤ fuel → findallAux fuel l = findallKeys l := by
  induction fuel using Nat.strong_induction_on with
  | _ fuel ih =>
    intro l hl
    match fuel with
    | 0 =>
      have : l = [] := List.length_eq_zero.mp (Nat.le_zero.mp hl)
      subst this
      rfl
    | fuel + 1 =>
      cases l with
      | nil => rfl
      | cons c rest =>
        simp only [List.length_cons] at hl
        cases hm : matchEntryAt (c :: rest) with
        | some p =>
          obtain ⟨k, r⟩ := p
          have hcons := matchEntryAt_consumes _ k r hm
          simp only [List.length_cons] at hcons
          rw [findallAux_succ_some fuel _ k r hm]
          unfold findallKeys
          rw [show (c :: rest).length = rest.length + 1 from rfl,
            findallAux_succ_some rest.length _ k r hm,
            ih fuel (Nat.lt_succ_self fuel) r (by omega),
            ih rest.length (by omega) r (by omega)]
        | none =>
          rw [findallAux_succ_none fuel c rest hm]
          unfold findallKeys
          rw [show (c :: rest).length = rest.length + 1 from rfl,
            findallAux_succ_none rest.length c rest hm,
            ih fuel (Nat.lt_succ_self fuel) rest (by omega),
            ih rest.length (by omega) rest (by omega)]

/-- Step equation of the extractor at a successful match. -/
theorem findallKeys_match (l : Str) (k r : Str)
    (hm : matchEntryAt l = some (k, r)) :
    findallKeys l = k :: findallKeys r := by
  cases l with
  | nil => exact absurd hm (by simp [matchEntryAt])
  | cons c rest =>
    have hcons := matchEntryAt_consumes _ k r hm
    simp only [List.length_cons] at hcons
    unfold findallKeys
    rw [show (c :: rest).length = rest.length + 1 from rfl,
      findallAux_succ_some rest.length _ k r hm,
      findallAux_eq_findallKeys rest.length r (by omega)]
    rfl

/-- Step equation of the extractor at a failed match: advance one
character. -/
theorem findallKeys_skip (c : Char) (rest : Str)
    (hm : matchEntryAt (c :: rest) = none) :
    findallKeys (c :: rest) = findallKeys rest := by
  unfold findallKeys
  rw [show (c :: rest).length = rest.length + 1 from rfl,
    findallAux_succ_none rest.length c rest hm]

/-- A leading whitespace character does not affect a match attempt. -/
theorem matchEntryAt_cons_ws (c : Char) (l : Str) (hw : isWS c = true) :
    matchEntryAt (c :: l) = matchEntryAt l := by
  unfold matchEntryAt
  rw [List.dropWhile_cons_of_pos hw]

/-- A match attempt at a non-whitespace character other than `@` fails. -/
theorem matchEntryAt_cons_neg (c : Char) (l : Str) (hw : isWS c = false)
    (hc : c ≠ '@') : matchEntryAt (c :: l) = none := by
  unfold matchEntryAt
  rw [List.dropWhile_cons_of_neg (by simp [hw])]
  split
  next l2 heq =>
    exact absurd (List.cons.injEq .. ▸ heq).1 hc
  next => rfl

/-- Text without `@` contributes no keys: the extractor behaves on
`l ++ m` as on `m` alone. -/
theorem findallKeys_noAt (l : Str) (h : ∀ c ∈ l, c ≠ '@') (m : Str) :
    findallKeys (l ++ m) = findallKeys m := by
  induction l with
  | nil => rfl
  | cons c l ih =>
    have hc : c ≠ '@' := h c (by simp)
    have ih' := ih (fun c hm => h c (by simp [hm]))
    rw [List.cons_append]
    by_cases hw : isWS c = true
    · have hme := matchEntryAt_cons_ws c (l ++ m) hw
      cases hm : matchEntryAt (l ++ m) with
      | some p =>
        obtain ⟨k, r⟩ := p
        rw [findallKeys_match _ k r (hme.trans hm), ← findallKeys_match _ k r hm, ih']
      | none =>
        rw [findallKeys_skip _ _ (hme.trans hm), ih']
    · have hw' : isWS c = false := by
        cases hws : isWS c
        · rfl
        · exact absurd hws hw
      rw [findallKeys_skip _ _ (matchEntryAt_cons_neg c (l ++ m) hw' hc), ih']

/-- A match attempt at `@`, a nonempty word, and an opening brace reduces
to `matchAfterBrace` on the rest. -/
theorem matchEntryAt_at_word (w : Str) (hw : w ≠ [])
    (hwc : ∀ c ∈ w, isWordChar c = true) (x : Str) :
    matchEntryAt ('@' :: (w ++ '\x7b' :: x)) = matchAfterBrace x := by
  obtain ⟨c, w', rfl⟩ : ∃ c w', w = c :: w' := by
    cases w with
    | nil => exact absurd rfl hw
    | cons c w' => exact ⟨c, w', rfl⟩
  unfold matchEntryAt
  rw [List.dropWhile_cons_of_neg (by decide)]
  have htake : ((c :: w') ++ '\x7b' :: x).takeWhile isWordChar = c :: w' :=
    takeWhile_all_append isWordChar (c :: w') hwc '\x7b' (by decide) x
  have hdrop : ((c :: w') ++ '\x7b' :: x).dropWhile isWordChar = '\x7b' :: x :=
    dropWhile_all_append isWordChar (c :: w') hwc '\x7b' (by decide) x
  simp only [htake, hdrop]

/-- `matchAfterBrace` on a well-formed key, comma, brace-free body and
closing brace captures the key and stops after the closing brace and the
trailing whitespace. -/
theorem matchAfterBrace_flat (k b rest : Str) (hwf : WfEntry k b) :
    matchAfterBrace (k ++ ',' :: (b ++ '\x7d' :: rest)) =
      some (k, rest.dropWhile isWS) := by
  obtain ⟨hk, hkc, hb⟩ := hwf
  obtain ⟨c, k', rfl⟩ : ∃ c k', k = c :: k' := by
    cases k with
    | nil => exact absurd rfl hk
    | cons c k' => exact ⟨c, k', rfl⟩
  unfold matchAfterBrace
  have hdw : ((c :: k') ++ ',' :: (b ++ '\x7d' :: rest)).dropWhile isWS
      = (c :: k') ++ ',' :: (b ++ '\x7d' :: rest) := by
    rw [List.cons_append,
      List.dropWhile_cons_of_neg (by simp [isKeyChar_not_ws c (hkc c (by simp))])]
  rw [hdw,
    takeWhile_all_append isKeyChar (c :: k') hkc ',' (by decide) _,
    dropWhile_all_append isKeyChar (c :: k') hkc ',' (by decide) _,
    List.dropWhile_cons_of_neg (by decide)]
  simp only [scanBody_flat b hb rest]

/-- The extractor pulls the key off a leading well-formed entry and
continues with the remaining text. -/
theorem findallKeys_entry (k b rest : Str) (hwf : WfEntry k b) :
    findallKeys (mkEntry k b ++ rest) = k :: findallKeys rest := by
  have hshape : mkEntry k b ++ rest
      = '@' :: (('a' :: 'r' :: 't' :: 'i' :: 'c' :: 'l' :: 'e' :: [])
          ++ '\x7b' :: (k ++ ',' :: (b ++ '\x7d' :: rest))) := by
    simp [mkEntry, List.cons_append, List.append_assoc]
  have hm : matchEntryAt (mkEntry k b ++ rest) = some (k, rest.dropWhile isWS) := by
    rw [hshape, matchEntryAt_at_word _ (by simp) (by decide) _,
      matchAfterBrace_flat k b rest hwf]
  rw [findallKeys_match _ k _ hm]
  have hsplit : rest = rest.takeWhile isWS ++ rest.dropWhile isWS :=
    (List.takeWhile_append_dropWhile ..).symm
  have hres : findallKeys rest = findallKeys (rest.dropWhile isWS) := by
    conv_lhs => rw [hsplit]
    exact findallKeys_noAt (rest.takeWhile isWS)
      (fun c hc => isWS_ne_at c (List.mem_takeWhile_imp hc)) _
  rw [hres]

/-! ### Flow-level helper lemmas -/

/-- When every captured key resolves to exactly one matching record, the
update loop succeeds and appends one fetched entry per key. -/
theorem update_loop_success (source : Str → List Record)
    (retrieve : Record → Str) (rs : Str → Record) :
    ∀ (ks : List Str) (live : Str),
    (∀ k ∈ ks, filter_matching k (source k) = [rs k]) →
    update_loop source retrieve ks live
      = (live ++ appendsU retrieve rs ks, false) := by
  intro ks
  induction ks with
  | nil => intro live _; simp [update_loop, appendsU]
  | cons k ks ih =>
    intro live h
    have hk := h k (by simp)
    unfold update_loop
    rw [hk]
    show update_loop source retrieve ks (bib_append_entry live (retrieve (rs k)))
      = (live ++ appendsU retrieve rs (k :: ks), false)
    rw [ih _ (fun k hm => h k (by simp [hm]))]
    simp [bib_append_entry, appendsU, List.append_assoc]

/-- Under unique resolution of every captured key, a whole update run
succeeds: the live file is the header plus one entry per captured key, no
backup remains, and the run does not abort. -/
theorem update_run_success (confirmAns : Bool → Bool)
    (source : Str → List Record) (retrieve : Record → Str)
    (now live0 : Str) (bak0 : Option Str) (rs : Str → Record)
    (hsrc : ∀ k ∈ bib_get_texkeys live0, filter_matching k (source k) = [rs k]) :
    update_run confirmAns source retrieve now live0 bak0
      = ⟨headerOf now ++ appendsU retrieve rs (bib_get_texkeys live0),
         none, false⟩ := by
  simp only [update_run]
  rw [update_loop_success source retrieve rs _ _ hsrc]
  rfl

/-- The keys of a sequence of appended well-formed entries are exactly the
appended keys, in order. -/
theorem findallKeys_appendsU (retrieve : Record → Str) (rs : Str → Record)
    (body : Str → Str) :
    ∀ ks : List Str,
    (∀ k ∈ ks, retrieve (rs k) = mkEntry k (body k)) →
    (∀ k ∈ ks, WfEntry k (body k)) →
    findallKeys (appendsU retrieve rs ks) = ks := by
  intro ks
  induction ks with
  | nil => intro _ _; rfl
  | cons k ks ih =>
    intro hret hwf
    unfold appendsU
    rw [hret k (by simp), List.cons_append]
    have hnl : findallKeys ('\n' :: (mkEntry k (body k) ++ appendsU retrieve rs ks))
        = findallKeys (mkEntry k (body k) ++ appendsU retrieve rs ks) :=
      findallKeys_noAt ['\n'] (by decide) _
    rw [hnl, findallKeys_entry k (body k) _ (hwf k (by simp)),
      ih (fun k hm => hret k (by simp [hm])) (fun k hm => hwf k (by simp [hm]))]

/-- The header line contains no `@` when the timestamp does not. -/
theorem headerOf_noAt (now : Str) (hnow : ∀ c ∈ now, c ≠ '@') :
    ∀ c ∈ headerOf now, c ≠ '@' := by
  intro c hc
  simp only [headerOf, List.append_assoc, List.mem_append] at hc
  rcases hc with hc | hc | hc
  · exact (by decide : ∀ c ∈ strL "# updated by inspire.py on ", c ≠ '@') c hc
  · exact hnow c hc
  · exact (by decide : ∀ c ∈ strL " \n", c ≠ '@') c hc

/-- The keys of a successful update run's live file are exactly the
captured keys. -/
theorem keys_header_appendsU (retrieve : Record → Str) (rs : Str → Record)
    (body : Str → Str) (now : Str) (ks : List Str)
    (hret : ∀ k ∈ ks, retrieve (rs k) = mkEntry k (body k))
    (hwf : ∀ k ∈ ks, WfEntry k (body k))
    (hnow : ∀ c ∈ now, c ≠ '@') :
    bib_get_texkeys (headerOf now ++ appendsU retrieve rs ks) = ks := by
  unfold bib_get_texkeys
  rw [findallKeys_noAt (headerOf now) (headerOf_noAt now hnow) _,
    findallKeys_appendsU retrieve rs body ks hret hwf]

/-- The selection loop equals the initial contents plus the conditional
per-record appends. -/
theorem selection_run_eq (retrieve : Record → Str) :
    ∀ (records : List Record) (live0 : Str),
    selection_run retrieve records live0
      = live0 ++ appendsSel retrieve (bib_get_texkeys live0) records := by
  intro records live0
  unfold selection_run
  suffices h : ∀ (recs : List Record) (acc : Str),
      recs.foldl (fun live r =>
        if decide (texkey0 r ∈ bib_get_texkeys live0) then live
        else bib_append_entry live (retrieve r)) acc
      = acc ++ appendsSel retrieve (bib_get_texkeys live0) recs by
    exact h records live0
  intro recs
  induction recs with
  | nil => intro acc; simp [appendsSel]
  | cons r recs ih =>
    intro acc
    simp only [List.foldl_cons]
    have hcons : appendsSel retrieve (bib_get_texkeys live0) (r :: recs)
        = (if decide (texkey0 r ∈ bib_get_texkeys live0) then []
           else '\n' :: retrieve r)
          ++ appendsSel retrieve (bib_get_texkeys live0) recs := rfl
    rw [hcons]
    by_cases hm : texkey0 r ∈ bib_get_texkeys live0
    · rw [if_pos (by simpa using hm), if_pos (by simpa using hm), ih]
      simp
    · rw [if_neg (by simpa using hm), if_neg (by simpa using hm), ih]
      simp [bib_append_entry, List.append_assoc]

/-- The keys of the selection loop's appended text: the primary texkeys of
the records that were not skipped, in order. -/
theorem findallKeys_appendsSel (retrieve : Record → Str) (keys0 : List Str)
    (body : Record → Str) :
    ∀ records : List Record,
    (∀ r ∈ records, retrieve r = mkEntry (texkey0 r) (body r)) →
    (∀ r ∈ records, WfEntry (texkey0 r) (body r)) →
    findallKeys (appendsSel retrieve keys0 records)
      = (records.filter (fun r => !decide (texkey0 r ∈ keys0))).map texkey0 := by
  intro records
  induction records with
  | nil => intro _ _; rfl
  | cons r records ih =>
    intro hret hwf
    have ih' := ih (fun r hm => hret r (by simp [hm]))
      (fun r hm => hwf r (by simp [hm]))
    unfold appendsSel
    by_cases hm : texkey0 r ∈ keys0
    · rw [if_pos (by simpa using hm)]
      rw [List.nil_append, ih']
      rw [List.filter_cons_of_neg (by simpa using hm)]
    · rw [if_neg (by simpa using hm), hret r (by simp), List.cons_append]
      have hnl : findallKeys
          ('\n' :: (mkEntry (texkey0 r) (body r) ++ appendsSel retrieve keys0 records))
          = findallKeys (mkEntry (texkey0 r) (body r) ++ appendsSel retrieve keys0 records) :=
        findallKeys_noAt ['\n'] (by decide) _
      rw [hnl, findallKeys_entry _ _ _ (hwf r (by simp)), ih',
        List.filter_cons_of_pos (by simpa using hm), List.map_cons]

/-! ### Claim theorems -/

/-- C4: whenever a backup path exists, `recover` restores the backup over
the live file exactly when the backup's key count is strictly greater than
the live file's key count and discards the backup otherwise; after an
interrupted rewrite (backup = pre-interruption file, live = partial file)
it yields contents whose key count is at least the pre-interruption key
count.  The interactive prompt is modelled by `confirmAns`; the hypothesis
states the user accepts the prompt's default, which the source sets to
exactly the key-count comparison. -/
theorem recover_restores_iff_more_keys (confirmAns : Bool → Bool)
    (hconf : ∀ d, confirmAns d = d) :
    (∀ live b, recover confirmAns live (some b)
        = if (bib_get_texkeys live).length < (bib_get_texkeys b).length
          then b else live) ∧
    (∀ orig partial0, (bib_get_texkeys orig).length
        ≤ (bib_get_texkeys (recover confirmAns partial0 (some orig))).length) := by
  constructor
  · intro live b
    show (if confirmAns (decide ((bib_get_texkeys b).length
        > (bib_get_texkeys live).length)) = true then b else live) = _
    rw [hconf]
    by_cases hlt : (bib_get_texkeys live).length < (bib_get_texkeys b).length
    · rw [if_pos (by simpa using hlt), if_pos hlt]
    · rw [if_neg (by simpa using hlt), if_neg hlt]
  · intro orig partial0
    show (bib_get_texkeys orig).length ≤ (bib_get_texkeys
      (if confirmAns (decide ((bib_get_texkeys orig).length
        > (bib_get_texkeys partial0).length)) = true then orig else partial0)).length
    rw [hconf]
    by_cases hlt : (bib_get_texkeys partial0).length < (bib_get_texkeys orig).length
    · rw [if_pos (by simpa using hlt)]
    · rw [if_neg (by simpa using hlt)]
      omega

/-- Witness for C4 at concrete contents: the backup with two keys is
restored over a one-key live file, and the restored key count dominates
the pre-interruption count. -/
theorem recover_restores_iff_more_keys_witness :
    recover (fun d => d) liveA (some liveAB) = liveAB ∧
    (bib_get_texkeys liveAB).length
      ≤ (bib_get_texkeys (recover (fun d => d) liveA (some liveAB))).length :=
  ⟨((recover_restores_iff_more_keys (fun d => d) (fun _ => rfl)).1 liveA liveAB).trans
      (by decide),
   (recover_restores_iff_more_keys (fun d => d) (fun _ => rfl)).2 liveAB liveA⟩

/-- C5 counterexample: `bib_append_entry` called with an entry whose key
`A` is already present does not fail and does not leave the file
unmodified — it appends anyway, leaving the key twice in the file. -/
theorem append_duplicate_modifies_file :
    bib_append_entry liveA (mkEntry (strL "A") (strL " z")) ≠ liveA ∧
    bib_get_texkeys (bib_append_entry liveA (mkEntry (strL "A") (strL " z")))
      = [strL "A", strL "A"] := by decide

/-- C5 amended: `bib_append_entry` performs no duplicate check at all and
unconditionally appends a newline and the text; the duplicate handling
lives in the selection caller, which reads the key list once before its
loop and silently skips (leaving the file unmodified) a record whose
primary texkey is in that pre-loop list, without raising any error. -/
theorem append_unconditional_caller_skips :
    (∀ content bibtex, bib_append_entry content bibtex
        = content ++ '\n' :: bibtex) ∧
    (∀ (retrieve : Record → Str) (r : Record) (live0 : Str),
      texkey0 r ∈ bib_get_texkeys live0 →
      selection_run retrieve [r] live0 = live0) := by
  constructor
  · intro content bibtex
    rfl
  · intro retrieve r live0 hmem
    simp [selection_run, hmem]

/-- Witness for C5 at a concrete store: a record whose primary texkey is
already present leaves the file unchanged. -/
theorem append_unconditional_caller_skips_witness :
    selection_run retrX [recX1] (mkEntry (strL "X") (strL " q"))
      = mkEntry (strL "X") (strL " q") :=
  append_unconditional_caller_skips.2 retrX recX1 _ (by decide)

/-- C6 counterexample: `"12.3"` does not fully match the spec's modern
pattern `NNNN.NNNNN`, yet normalization returns it unchanged instead of
prefixing the first category — the code's pattern is `\d+\.\d+`, not
`NNNN.NNNNN`. -/
theorem arxiv_norm_modern_pattern_counterexample :
    spec_fullmatch_modern (strL "12.3") = false ∧
    arxiv_id_of (strL "12.3") [strL "hep-ph"] = some (strL "12.3") ∧
    strL "12.3" ≠ strL "hep-ph" ++ '/' :: strL "12.3" := by decide

/-- C6 amended: identifier normalization returns the value unchanged
exactly when the value fully matches `\d+\.\d+` (one or more digits, dot,
one or more digits); otherwise it returns the first associated category, a
slash, and the value.  The two examples of the claim hold. -/
theorem arxiv_norm_value_unchanged_iff_numeric (v c : Str) (cs : List Str) :
    (arxiv_id_of v (c :: cs) = some v ↔ re_fullmatch_num v = true) ∧
    (re_fullmatch_num v = false →
      arxiv_id_of v (c :: cs) = some (c ++ '/' :: v)) ∧
    arxiv_id_of (strL "2107.12345") [] = some (strL "2107.12345") ∧
    arxiv_id_of (strL "9912001") [strL "hep-ph"]
      = some (strL "hep-ph/9912001") := by
  refine ⟨⟨?_, ?_⟩, ?_, by decide, by decide⟩
  · intro h
    by_cases hm : re_fullmatch_num v = true
    · exact hm
    · exfalso
      have hm' : re_fullmatch_num v = false := by
        cases hmv : re_fullmatch_num v
        · rfl
        · exact absurd hmv hm
      rw [show arxiv_id_of v (c :: cs) = some (c ++ '/' :: v) from by
          simp [arxiv_id_of, hm']] at h
      have h' : c ++ '/' :: v = v := by simpa using h
      have hlen := congrArg List.length h'
      simp only [List.length_append, List.length_cons] at hlen
      omega
  · intro hm
    simp [arxiv_id_of, hm]
  · intro hm
    simp [arxiv_id_of, hm]

/-- Witness for C6: the legacy example resolves through the category
branch. -/
theorem arxiv_norm_value_unchanged_iff_numeric_witness :
    arxiv_id_of (strL "9912001") (strL "hep-ph" :: [])
      = some (strL "hep-ph" ++ '/' :: strL "9912001") :=
  (arxiv_norm_value_unchanged_iff_numeric (strL "9912001") (strL "hep-ph") []).2.1
    (by decide)

/-- C9: `download_pdf` on an existing destination with `exist_ok=false`
fails with `FileExistsError`; the same call with `exist_ok=true` succeeds
for a record carrying a resolvable identifier, and the destination content
afterward is the bytes served at the computed URL. -/
theorem fetch_exists_gate_and_overwrite (net : Str → Str)
    (fs : Str → Option Str) (r : Record) (dest : Str) :
    ((fs dest).isSome = true →
      download_pdf net fs r dest false = .error .fileExistsError) ∧
    (∀ e es aid, r.arxiv_eprints = some (e :: es) →
      arxiv_id_of e.value e.categories = some aid →
      ∃ fs2, download_pdf net fs r dest true = .ok fs2 ∧
        fs2 dest = some (net (strL "http://arxiv.org/pdf/" ++ aid
          ++ strL ".pdf"))) := by
  constructor
  · intro h
    unfold download_pdf
    rw [if_pos (by simp [h])]
  · intro e es aid h1 h2
    refine ⟨fun p => if p = dest
        then some (net (strL "http://arxiv.org/pdf/" ++ aid ++ strL ".pdf"))
        else fs p, ?_, by simp⟩
    simp [download_pdf, h1, h2]

/-- Witness for C9 at a concrete filesystem and record. -/
theorem fetch_exists_gate_and_overwrite_witness :
    download_pdf (fun _ => strL "PDF")
      (fun p => if p = strL "d.pdf" then some (strL "old") else none)
      recP (strL "d.pdf") false = .error .fileExistsError ∧
    ∃ fs2, download_pdf (fun _ => strL "PDF")
      (fun p => if p = strL "d.pdf" then some (strL "old") else none)
      recP (strL "d.pdf") true = .ok fs2 ∧
      fs2 (strL "d.pdf") = some (strL "PDF") :=
  ⟨(fetch_exists_gate_and_overwrite _ _ recP _).1 (by decide),
   (fetch_exists_gate_and_overwrite _ _ recP _).2 ⟨strL "2107.12345", []⟩ []
     (strL "2107.12345") (by decide) (by decide)⟩

/-- C10: a record whose first arXiv eprint has a legacy-style value (no
full `\d+\.\d+` match) and an empty category list makes `download_pdf`
raise `IndexError` (from `categories[0]`), not the typed `ValueError`; the
typed `ValueError` can only arise when the record has no `arxiv_eprints`
field at all. -/
theorem download_pdf_legacy_no_category_index_error (net : Str → Str)
    (fs : Str → Option Str) (r : Record) (dest : Str) (v : Str)
    (es : List Eprint) :
    ((fs dest).isSome = false →
      r.arxiv_eprints = some (⟨v, []⟩ :: es) →
      re_fullmatch_num v = false →
      download_pdf net fs r dest false = .error .indexError) ∧
    (∀ exist_ok m, download_pdf net fs r dest exist_ok
        = .error (.valueError m) → r.arxiv_eprints = none) := by
  constructor
  · intro hfs harx hnum
    simp [download_pdf, hfs, harx, arxiv_id_of, hnum]
  · intro exist_ok m h
    cases harx : r.arxiv_eprints with
    | none => rfl
    | some eprints =>
      exfalso
      unfold download_pdf at h
      rw [harx] at h
      split at h
      · simp at h
      · cases eprints with
        | nil => simp at h
        | cons e es' =>
          cases ha : arxiv_id_of e.value e.categories with
          | some aid => simp [ha] at h
          | none => simp [ha] at h

/-- Witness for C10: the legacy no-category record yields `IndexError`,
and a record that did produce the typed error indeed has no
`arxiv_eprints`. -/
theorem download_pdf_legacy_witness :
    download_pdf (fun _ => strL "PDF") (fun _ => none) recL (strL "d.pdf")
      false = .error .indexError ∧
    recA.arxiv_eprints = none :=
  ⟨(download_pdf_legacy_no_category_index_error _ _ recL _ (strL "9912001")
      []).1 (by decide) (by decide) (by decide),
   (download_pdf_legacy_no_category_index_error (fun _ => strL "PDF")
      (fun _ => none) recA (strL "d.pdf") (strL "") []).2 false (strL "A")
      rfl⟩

/-- C1 counterexample: with keys `{A, B}` where `A` resolves to one record
and `B` to zero, the run aborts, but the live file afterward is NOT the
original two-entry file — it is the partially rewritten file containing
only `A`'s refreshed entry (the original survives only in the backup). -/
theorem sync_abort_partial_counterexample :
    (update_run (fun _ => true) srcAonly retrAB (strL "T") liveAB none).aborted
      = true ∧
    bib_get_texkeys liveAB = [strL "A", strL "B"] ∧
    bib_get_texkeys
      (update_run (fun _ => true) srcAonly retrAB (strL "T") liveAB none).live
      = [strL "A"] ∧
    (update_run (fun _ => true) srcAonly retrAB (strL "T") liveAB none).live
      ≠ liveAB := by decide

/-- C1 amended: in the `{A, B}` scenario the run aborts with the
`ValueError` (`AmbiguousResolution`), the live file afterward is the
partially rewritten file (header plus `A`'s refreshed entry), and the
backup file holds exactly the original contents with `A` and `B`, so the
pre-sync state is recoverable on the next run — a partial file is never
left without its backup. -/
theorem sync_abort_leaves_backup_pending (confirmAns : Bool → Bool)
    (source : Str → List Record) (retrieve : Record → Str) (now live0 : Str)
    (A B : Str) (rA : Record)
    (hkeys : bib_get_texkeys live0 = [A, B])
    (hA : filter_matching A (source A) = [rA])
    (hB : filter_matching B (source B) = []) :
    (update_run confirmAns source retrieve now live0 none).aborted = true ∧
    (update_run confirmAns source retrieve now live0 none).bak = some live0 ∧
    (update_run confirmAns source retrieve now live0 none).live
      = bib_append_entry (headerOf now) (retrieve rA) := by
  have hloop : update_loop source retrieve [A, B] (headerOf now)
      = (bib_append_entry (headerOf now) (retrieve rA), true) := by
    unfold update_loop
    rw [hA]
    show update_loop source retrieve [B]
      (bib_append_entry (headerOf now) (retrieve rA)) = _
    unfold update_loop
    rw [hB]
  simp only [update_run]
  rw [hkeys, hloop]
  exact ⟨rfl, rfl, rfl⟩

/-- Witness for C1 at concrete contents and source. -/
theorem sync_abort_leaves_backup_pending_witness :
    (update_run (fun _ => true) srcAonly retrAB (strL "T") liveAB none).aborted
      = true ∧
    (update_run (fun _ => true) srcAonly retrAB (strL "T") liveAB none).bak
      = some liveAB ∧
    (update_run (fun _ => true) srcAonly retrAB (strL "T") liveAB none).live
      = bib_append_entry (headerOf (strL "T")) (retrAB recA) :=
  sync_abort_leaves_backup_pending (fun _ => true) srcAonly retrAB (strL "T")
    liveAB (strL "A") (strL "B") recA (by decide) (by decide) (by decide)

/-- C2 counterexample: the live file has key `A` only, the backup has keys
`A` and `B`, the user restores the backup, and the source can resolve both
keys; yet the run rewrites only `A` — the captured key set came from the
pre-recovery live file, not from the recovered file. -/
theorem sync_keylist_before_recovery_counterexample :
    bib_get_texkeys liveAB = [strL "A", strL "B"] ∧
    bib_get_texkeys liveA = [strL "A"] ∧
    (update_run (fun _ => true) srcAB retrAB (strL "T") liveA
      (some liveAB)).aborted = false ∧
    bib_get_texkeys (update_run (fun _ => true) srcAB retrAB (strL "T") liveA
      (some liveAB)).live = [strL "A"] := by decide

/-- C2 amended: the source calls `bib_get_texkeys` on the live file first
(line 263), then runs recovery, then begins the rewrite; the captured key
set therefore comes from the pre-recovery live file, so the rewritten
contents and the abort outcome are entirely independent of the backup that
recovery may restore. -/
theorem sync_rewrite_independent_of_backup (confirmAns : Bool → Bool)
    (source : Str → List Record) (retrieve : Record → Str) (now live0 : Str)
    (b1 b2 : Option Str) :
    (update_run confirmAns source retrieve now live0 b1).live
      = (update_run confirmAns source retrieve now live0 b2).live ∧
    (update_run confirmAns source retrieve now live0 b1).aborted
      = (update_run confirmAns source retrieve now live0 b2).aborted := by
  simp only [update_run]
  constructor <;>
    · rcases update_loop source retrieve (bib_get_texkeys live0) (headerOf now)
        with ⟨liveF, ab⟩
      cases ab <;> rfl

/-- C3 counterexample: two successive runs with an unchanged source but
different timestamps produce different bytes (the header line differs), so
the runs are not byte-identical although the first run succeeds. -/
theorem sync_twice_not_byte_identical :
    (update_run (fun _ => true) srcAonly retrAB (strL "T1") liveA
      none).aborted = false ∧
    (update_run (fun _ => true) srcAonly retrAB (strL "T2")
        (update_run (fun _ => true) srcAonly retrAB (strL "T1") liveA none).live
        (update_run (fun _ => true) srcAonly retrAB (strL "T1") liveA none).bak).live
      ≠ (update_run (fun _ => true) srcAonly retrAB (strL "T1") liveA
          none).live := by decide

/-- C3 amended: with the timestamp fixed, running the update twice in
succession with an unchanged source produces byte-identical live files
whenever the first run succeeds (every captured key resolves uniquely to a
well-formed entry keyed by the queried key); the only byte difference
between real runs is the header timestamp. -/
theorem sync_twice_identical_same_timestamp (confirmAns : Bool → Bool)
    (source : Str → List Record) (retrieve : Record → Str) (now live0 : Str)
    (bak0 : Option Str) (rs : Str → Record) (body : Str → Str)
    (hsrc : ∀ k ∈ bib_get_texkeys live0, filter_matching k (source k) = [rs k])
    (hret : ∀ k ∈ bib_get_texkeys live0, retrieve (rs k) = mkEntry k (body k))
    (hwf : ∀ k ∈ bib_get_texkeys live0, WfEntry k (body k))
    (hnow : ∀ c ∈ now, c ≠ '@') :
    (update_run confirmAns source retrieve now live0 bak0).aborted = false ∧
    (update_run confirmAns source retrieve now
        (update_run confirmAns source retrieve now live0 bak0).live
        (update_run confirmAns source retrieve now live0 bak0).bak).live
      = (update_run confirmAns source retrieve now live0 bak0).live ∧
    (update_run confirmAns source retrieve now
        (update_run confirmAns source retrieve now live0 bak0).live
        (update_run confirmAns source retrieve now live0 bak0).bak).aborted
      = false := by
  have h1 := update_run_success confirmAns source retrieve now live0 bak0 rs hsrc
  have hkeys1 : bib_get_texkeys
      (update_run confirmAns source retrieve now live0 bak0).live
      = bib_get_texkeys live0 := by
    rw [h1]
    exact keys_header_appendsU retrieve rs body now _ hret hwf hnow
  have hsrc2 : ∀ k ∈ bib_get_texkeys
      (update_run confirmAns source retrieve now live0 bak0).live,
      filter_matching k (source k) = [rs k] := by
    rw [hkeys1]; exact hsrc
  have h2 := update_run_success confirmAns source retrieve now
    (update_run confirmAns source retrieve now live0 bak0).live
    (update_run confirmAns source retrieve now live0 bak0).bak rs hsrc2
  refine ⟨by rw [h1], ?_, by rw [h2]⟩
  rw [h2, hkeys1, h1]

/-- Witness for C3 at concrete contents, source and timestamp. -/
theorem sync_twice_identical_same_timestamp_witness :
    (update_run (fun _ => true) srcAonly retrAB (strL "T") liveA
      none).aborted = false ∧
    (update_run (fun _ => true) srcAonly retrAB (strL "T")
        (update_run (fun _ => true) srcAonly retrAB (strL "T") liveA none).live
        (update_run (fun _ => true) srcAonly retrAB (strL "T") liveA none).bak).live
      = (update_run (fun _ => true) srcAonly retrAB (strL "T") liveA
          none).live ∧
    (update_run (fun _ => true) srcAonly retrAB (strL "T")
        (update_run (fun _ => true) srcAonly retrAB (strL "T") liveA none).live
        (update_run (fun _ => true) srcAonly retrAB (strL "T") liveA none).bak).aborted
      = false :=
  sync_twice_identical_same_timestamp (fun _ => true) srcAonly retrAB
    (strL "T") liveA none rsAB (fun _ => strL " x") (by decide) (by decide)
    (by decide) (by decide)

/-- C7 counterexample: starting from the empty store (whose key set is
trivially unique), selecting two records that share the primary texkey `X`
appends both — the resulting file holds the key `X` twice, violating the
uniqueness invariant. -/
theorem key_uniqueness_counterexample :
    (bib_get_texkeys []).Nodup ∧
    bib_get_texkeys (selection_run retrX [recX1, recX2] [])
      = [strL "X", strL "X"] ∧
    ¬ (bib_get_texkeys (selection_run retrX [recX1, recX2] [])).Nodup := by
  decide

/-- C7 amended: the writes preserve key uniqueness only conditionally.
The selection flow preserves it when the chosen records' primary texkeys
are pairwise distinct (its stale pre-loop key list still guards against
keys already on disk), the store splits cleanly, and each fetched entry is
well-formed and keyed by its record's primary texkey; the update flow
preserves it when every captured key resolves uniquely to a well-formed
entry keyed by the queried key. -/
theorem key_uniqueness_under_distinct_keys :
    (∀ (retrieve : Record → Str) (live0 : Str) (records : List Record)
        (body : Record → Str),
      (∀ m, bib_get_texkeys (live0 ++ m)
        = bib_get_texkeys live0 ++ bib_get_texkeys m) →
      (bib_get_texkeys live0).Nodup →
      (records.map texkey0).Nodup →
      (∀ r ∈ records, retrieve r = mkEntry (texkey0 r) (body r)) →
      (∀ r ∈ records, WfEntry (texkey0 r) (body r)) →
      (bib_get_texkeys (selection_run retrieve records live0)).Nodup) ∧
    (∀ (confirmAns : Bool → Bool) (source : Str → List Record)
        (retrieve : Record → Str) (now live0 : Str) (bak0 : Option Str)
        (rs : Str → Record) (body : Str → Str),
      (∀ k ∈ bib_get_texkeys live0, filter_matching k (source k) = [rs k]) →
      (∀ k ∈ bib_get_texkeys live0, retrieve (rs k) = mkEntry k (body k)) →
      (∀ k ∈ bib_get_texkeys live0, WfEntry k (body k)) →
      (∀ c ∈ now, c ≠ '@') →
      (bib_get_texkeys live0).Nodup →
      (bib_get_texkeys
        (update_run confirmAns source retrieve now live0 bak0).live).Nodup) := by
  constructor
  · intro retrieve live0 records body hclean hnd hdis hret hwf
    have happ : bib_get_texkeys
        (appendsSel retrieve (bib_get_texkeys live0) records)
        = (records.filter
            (fun r => !decide (texkey0 r ∈ bib_get_texkeys live0))).map texkey0 :=
      findallKeys_appendsSel retrieve (bib_get_texkeys live0) body records
        hret hwf
    rw [selection_run_eq, hclean, happ]
    refine List.Nodup.append hnd ?_ ?_
    · exact ((List.filter_sublist records).map texkey0).nodup hdis
    · intro a ha hb
      simp only [List.mem_map, List.mem_filter] at hb
      obtain ⟨r, ⟨hrmem, hnotin⟩, rfl⟩ := hb
      simp only [Bool.not_eq_eq_eq_not, Bool.not_true, decide_eq_false_iff_not]
        at hnotin
      exact hnotin ha
  · intro confirmAns source retrieve now live0 bak0 rs body hsrc hret hwf
      hnow hnd
    rw [update_run_success confirmAns source retrieve now live0 bak0 rs hsrc]
    show (bib_get_texkeys (headerOf now
      ++ appendsU retrieve rs (bib_get_texkeys live0))).Nodup
    rw [keys_header_appendsU retrieve rs body now _ hret hwf hnow]
    exact hnd

/-- Witness for C7: a single selected record into the empty store keeps
the key set unique. -/
theorem key_uniqueness_under_distinct_keys_witness :
    (bib_get_texkeys (selection_run retrX [recX1] [])).Nodup :=
  key_uniqueness_under_distinct_keys.1 retrX [] [recX1] (fun _ => strL " a")
    (fun _ => rfl) (by decide) (by decide) (by decide) (by decide)

/-- C8: the extractor is a total function (it never raises); on a text
made of a well-formed entry keyed `k1`, a malformed unterminated fragment
`@bad{Q`, and a well-formed entry keyed `k3`, it skips the fragment and
returns exactly the two keys of the well-formed entries in first-seen
order, with `k1 = k3` allowed (duplicates preserved, not collapsed). -/
theorem extractor_skips_malformed (k1 k3 : Str)
    (h1 : k1 ≠ [] ∧ ∀ c ∈ k1, isKeyChar c = true)
    (h3 : k3 ≠ [] ∧ ∀ c ∈ k3, isKeyChar c = true) :
    bib_get_texkeys (c8text k1 k3) = [k1, k3] := by
  have hwf1 : WfEntry k1 (strL " x") := ⟨h1.1, h1.2, by decide⟩
  have hwf3 : WfEntry k3 (strL " y") := ⟨h3.1, h3.2, by decide⟩
  show findallKeys (mkEntry k1 (strL " x")
    ++ ('\n' :: '@' :: 'b' :: 'a' :: 'd' :: '\x7b' :: 'Q' :: '\n'
        :: mkEntry k3 (strL " y"))) = [k1, k3]
  rw [findallKeys_entry k1 _ _ hwf1]
  congr 1
  have hnl : findallKeys ('\n' :: ('@' :: 'b' :: 'a' :: 'd' :: '\x7b' :: 'Q'
      :: '\n' :: mkEntry k3 (strL " y")))
      = findallKeys ('@' :: 'b' :: 'a' :: 'd' :: '\x7b' :: 'Q' :: '\n'
          :: mkEntry k3 (strL " y")) :=
    findallKeys_noAt ['\n'] (by decide) _
  rw [hnl]
  have hfrag : matchEntryAt ('@' :: 'b' :: 'a' :: 'd' :: '\x7b' :: 'Q' :: '\n'
      :: mkEntry k3 (strL " y")) = none := rfl
  rw [findallKeys_skip _ _ hfrag,
    findallKeys_skip _ _ (matchEntryAt_cons_neg 'b' _ (by decide) (by decide)),
    findallKeys_skip _ _ (matchEntryAt_cons_neg 'a' _ (by decide) (by decide)),
    findallKeys_skip _ _ (matchEntryAt_cons_neg 'd' _ (by decide) (by decide)),
    findallKeys_skip _ _ (matchEntryAt_cons_neg '\x7b' _ (by decide) (by decide)),
    findallKeys_skip _ _ (matchEntryAt_cons_neg 'Q' _ (by decide) (by decide))]
  have hnl2 : findallKeys ('\n' :: mkEntry k3 (strL " y"))
      = findallKeys (mkEntry k3 (strL " y")) :=
    findallKeys_noAt ['\n'] (by decide) _
  rw [hnl2]
  have hlast : findallKeys (mkEntry k3 (strL " y") ++ [])
      = k3 :: findallKeys [] := findallKeys_entry k3 _ [] hwf3
  rw [List.append_nil] at hlast
  rw [hlast]
  rfl

/-- Witness for C8 with equal keys (duplicates surface, not collapsed). -/
theorem extractor_skips_malformed_witness :
    ((strL "Zab" ≠ []) ∧ ∀ c ∈ strL "Zab", isKeyChar c = true) ∧
    bib_get_texkeys (c8text (strL "Zab") (strL "Zab"))
      = [strL "Zab", strL "Zab"] :=
  ⟨by decide,
   extractor_skips_malformed (strL "Zab") (strL "Zab") (by decide) (by decide)⟩
